import Mathlib

/-!
Verification of the download-completion reconciliation pipeline of the
librarian-bot repository. The definitions below are shallow embeddings of
the Python sources:

* `qbit_client.py` — torrent data model (`TorrentState`, `TorrentInfo`) and
  `QBittorrentClient.add_torrent` / `get_torrents_in_category`;
* `qbit_monitor.py` — the completion poller (`_check_completed_downloads`,
  `_monitor_loop`, `_load_processed_hashes`) and the completion notifier
  (`_notify_bot_completion`);
* `scripts/pending_approvals.py` — the approvals ledger (`PendingApprovalsDB`);
* `scripts/book_requests.py` — the book-requests store (`BookRequestsDB`);
* `request_tracking.py` — the legacy request tracker (`RequestTrackingDB`);
* `discord_commands.py` — the admin approval handler
  (`LibrarianCommands._handle_admin_approve`, best-result selection in
  `_show_book_request`);
* `scripts/discord_views.py` — the admin approval view default selection
  (`AdminApprovalView.__init__`).

Machine floats (torrent progress fractions) are modelled as rationals and
Python dictionaries as association lists with unique keys kept in insertion
order, matching CPython dict semantics.
-/

/-- Torrent lifecycle states, from `qbit_client.py` (`class TorrentState`). -/
inductive TorrentState
  | downloading
  | seeding
  | completed
  | paused
  | error
  | unknown
deriving DecidableEq

/-- Torrent data, from `qbit_client.py` (`class TorrentInfo`). The purely
statistical fields (`size`, `downloaded`, `uploaded`, `ratio`, speeds, peer
counts and timestamps) are only ever interpolated into log strings by the
code under verification and are omitted; the fields below are the ones the
poller, the completion check, the category filter and `add_torrent`
verification read. -/
structure TorrentInfo where
  hash : String
  name : String
  state : TorrentState
  progress : ℚ
  category : String
  save_path : String
  magnet_uri : String
deriving DecidableEq

/-- The completion test of `qbit_monitor.py` line 131:
`torrent.state == TorrentState.SEEDING or torrent.progress >= 1.0`. -/
def isCompletedDownload (t : TorrentInfo) : Bool :=
  t.state == TorrentState.seeding || decide ((1 : ℚ) ≤ t.progress)

/-- Category filter of `qbit_client.py` `get_torrents_in_category`:
`[t for t in torrents if t.category == category]`. -/
def getTorrentsInCategory (torrents : List TorrentInfo) (category : String) :
    List TorrentInfo :=
  torrents.filter (fun t => t.category == category)

/-- Kinds of observable effects emitted by one poller tick:
`_organize_download(name, save_path)`, `_notify_bot_completion(hash, name)`
and the `processed_hashes.add(hash)` / `_save_processed_hashes()` pair of
`qbit_monitor.py` lines 136-144. -/
inductive EventKind
  | organize (name : String) (save_path : String)
  | notify (name : String)
  | markProcessed
deriving DecidableEq

/-- One effect of a tick, annotated with the hash of the torrent whose
processing emitted it (for `notify` and `markProcessed` the hash is also
the argument passed in the source; for `organize` the source passes
`(name, save_path)` and the hash records which job the call was for). -/
structure Event where
  jobHash : String
  kind : EventKind
deriving DecidableEq

/-- The per-torrent loop of `QBitMonitor._check_completed_downloads`
(`qbit_monitor.py` lines 122-145), parameterised by `notifyRaises`: whether
the awaited `_notify_bot_completion` call for a given hash raises an
exception. `_organize_download` catches all its exceptions internally
(lines 158-173), so the organize step never raises; a raising notify
propagates to the `except` at line 147, which abandons the rest of the
torrent list for this tick. The processed set is a Python `set`; it is
modelled as the list of its members in insertion order. -/
def processTorrents (notifyRaises : String → Bool) :
    List String → List TorrentInfo → List String × List Event
  | p, [] => (p, [])
  | p, t :: rest =>
    if t.hash ∈ p then
      processTorrents notifyRaises p rest
    else if isCompletedDownload t then
      if notifyRaises t.hash then
        (p, [⟨t.hash, EventKind.organize t.name t.save_path⟩])
      else
        ((processTorrents notifyRaises (p ++ [t.hash]) rest).1,
         ⟨t.hash, EventKind.organize t.name t.save_path⟩ ::
           ⟨t.hash, EventKind.notify t.name⟩ ::
             ⟨t.hash, EventKind.markProcessed⟩ ::
               (processTorrents notifyRaises (p ++ [t.hash]) rest).2)
    else
      processTorrents notifyRaises p rest

/-- One full tick of `QBitMonitor._check_completed_downloads`
(`qbit_monitor.py` lines 104-148): if the connection attempt fails the tick
does nothing; otherwise the torrents of the managed category
`"librarian-bot"` are processed in listing order. The monitor is
constructed with `bot=self` in `bot.py` line 75, so the notify branch at
line 139 is always taken. -/
def checkCompletedDownloads (connected : Bool) (notifyRaises : String → Bool)
    (p : List String) (torrents : List TorrentInfo) :
    List String × List Event :=
  if connected then
    processTorrents notifyRaises p (getTorrentsInCategory torrents ("librarian-bot"))
  else
    (p, [])

/-- Input of one poller tick: connection outcome, the notify failure oracle
and the download client's listing observed by that tick. -/
structure TickInput where
  connected : Bool
  notifyRaises : String → Bool
  torrents : List TorrentInfo

/-- A sequence of poller ticks starting from a processed set, threading the
processed set through and concatenating the emitted effects. -/
def runTicks : List String → List TickInput → List String × List Event
  | p, [] => (p, [])
  | p, i :: rest =>
    let r := checkCompletedDownloads i.connected i.notifyRaises p i.torrents
    let r' := runTicks r.1 rest
    (r'.1, r.2 ++ r'.2)

/-- Outcome of the tick body as seen by `_monitor_loop`
(`qbit_monitor.py` lines 94-102): normal return, an `Exception`, or an
`asyncio.CancelledError` (which `except Exception` does not catch). -/
inductive TickOutcome
  | ok
  | exn
  | cancelled
deriving DecidableEq

/-- What the loop of `_monitor_loop` does after one iteration body. -/
inductive LoopAction
  | sleepThenContinue
  | exitLoop
deriving DecidableEq

/-- The control flow of `_monitor_loop` (`qbit_monitor.py` lines 94-102):
a normal tick sleeps and continues (line 97), a `CancelledError` breaks the
loop (lines 98-99), any other exception is logged, sleeps and continues
(lines 100-102). -/
def monitorLoopStep : TickOutcome → LoopAction
  | TickOutcome.ok => LoopAction.sleepThenContinue
  | TickOutcome.exn => LoopAction.sleepThenContinue
  | TickOutcome.cancelled => LoopAction.exitLoop

/-- The ordering discipline claimed for processed-set insertions: whenever
a tick trace contains a `markProcessed` for hash `h`, the events just
before it are the organize call and the notify call for the same job. -/
def MarksGuarded (evs : List Event) : Prop :=
  ∀ l₁ l₂ h, evs = l₁ ++ ⟨h, EventKind.markProcessed⟩ :: l₂ →
    ∃ l₀ nm sp, l₁ = l₀ ++ [⟨h, EventKind.organize nm sp⟩, ⟨h, EventKind.notify nm⟩]

/-- Release data, from `scripts/prowlarr_api.py` (`class SearchResult`).
The optional media-database ids (`imdb_id`, `tvdb_id`, `tmdb_id`) are never
read by the code under verification and are omitted. -/
structure SearchResult where
  title : String
  download_url : String
  seeders : Nat
  leechers : Nat
  size : Nat
  indexer : String
  publish_date : String
  guid : String
deriving DecidableEq

/-- The default selection of `AdminApprovalView.__init__`
(`scripts/discord_views.py` line 373):
`self.selected_torrent = self.torrent_results[0] if self.torrent_results else None`.
This is what `_handle_admin_approve` receives when the admin approves
without touching the indexer dropdown. -/
def defaultSelectedTorrent (torrent_results : List SearchResult) :
    Option SearchResult :=
  torrent_results.head?

/-- The best-result computation of `_show_book_request`
(`discord_commands.py` line 557):
`best_result = max(prowlarr_results, key=lambda x: x.seeders)`.
Python `max` keeps the current maximum and replaces it only on a strictly
greater key, so it returns the first of the maxima. -/
def pyMaxBySeeders : List SearchResult → Option SearchResult
  | [] => none
  | x :: xs => some (xs.foldl (fun acc r => if acc.seeders < r.seeders then r else acc) x)

/-- One record of the approvals ledger, from
`scripts/pending_approvals.py` `add_approval` (lines 86-98) together with
the `torrent_hash` key that `_notify_bot_completion` reads through
`data.get("torrent_hash")`: an `Option` models a possibly absent dict key.
`created_at` / `updated_at` timestamps and the optional `result` payload
are write-only in the sources and are omitted. -/
structure ApprovalRecord where
  user_id : Nat
  book_title : String
  request_type : String
  torrent_results : List SearchResult
  selected_torrent : SearchResult
  message_id : Nat
  channel_id : Nat
  user_message_id : Option Nat
  user_channel_id : Option Nat
  status : String
  torrent_hash : Option String
deriving DecidableEq

/-- Lookup in a Python dict modelled as an association list in insertion
order: `d.get(k)`. -/
def dictGet {α : Type} : List (String × α) → String → Option α
  | [], _ => none
  | q :: rest, k => if q.1 == k then some q.2 else dictGet rest k

/-- Assignment in a Python dict modelled as an association list:
`d[k] = v` replaces the value in place if the key exists, else appends. -/
def dictSet {α : Type} : List (String × α) → String → α → List (String × α)
  | [], k, v => [(k, v)]
  | q :: rest, k, v => if q.1 == k then (k, v) :: rest else q :: dictSet rest k v

/-- The keys of a modelled dict, in insertion order. -/
def dictKeys {α : Type} (d : List (String × α)) : List String :=
  d.map (fun q => q.1)

/-- `PendingApprovalsDB.add_approval` (`scripts/pending_approvals.py`
lines 54-104): inserts the record with status `"pending"` (and no
`torrent_hash` key), persists, and returns `True`; the `except` branch is
unreachable for the pure dict assignment modelled here. -/
def addApproval (d : List (String × ApprovalRecord)) (approval_id : String)
    (user_id : Nat) (book_title : String) (request_type : String)
    (torrent_results : List SearchResult) (selected_torrent : SearchResult)
    (message_id : Nat) (channel_id : Nat)
    (user_message_id : Option Nat) (user_channel_id : Option Nat) :
    List (String × ApprovalRecord) × Bool :=
  (dictSet d approval_id
    { user_id := user_id
      book_title := book_title
      request_type := request_type
      torrent_results := torrent_results
      selected_torrent := selected_torrent
      message_id := message_id
      channel_id := channel_id
      user_message_id := user_message_id
      user_channel_id := user_channel_id
      status := ("pending")
      torrent_hash := none }, true)

/-- `PendingApprovalsDB.update_approval` (`scripts/pending_approvals.py`
lines 118-142): mutates the status in place when the id exists, else
returns `False`. The optional `result` payload is omitted (write-only). -/
def updateApproval (d : List (String × ApprovalRecord)) (approval_id : String)
    (status : String) : List (String × ApprovalRecord) × Bool :=
  match dictGet d approval_id with
  | none => (d, false)
  | some rec =>
      (dictSet d approval_id { rec with status := status }, true)

/-- The observable actions of `LibrarianCommands._handle_admin_approve`
(`discord_commands.py` lines 674-764), in program order. -/
inductive ApproveAction
  | deferResponse
  | editUserMessageApproved
  | errorNoDownloadUrl
  | addTorrentSubmitted (download_url : String)
  | dmUserApproved
  | adminConfirm
deriving DecidableEq

/-- `LibrarianCommands._handle_admin_approve` (`discord_commands.py` lines
674-764). Inputs: the approvals ledger (the cog holds no reference to it,
and the handler never touches it), the selected torrent passed from the
view, whether the user still has a `pending_requests` entry (for the
user-message edit at lines 694-701), and the value `qbit.add_torrent`
would return. The source calls `qbit.add_torrent(...)` at lines 713-716
without binding its return value, so `addTorrentResult` is deliberately
unused, exactly as in the source; no ledger record is written and no
status is changed on any path. -/
def handleAdminApprove (approvals : List (String × ApprovalRecord))
    (selected : SearchResult) (userHasPendingEntry : Bool)
    (addTorrentResult : Option String) :
    List (String × ApprovalRecord) × List ApproveAction :=
  let prefixActs :=
    ApproveAction.deferResponse ::
      (if userHasPendingEntry then [ApproveAction.editUserMessageApproved] else [])
  if selected.download_url = ("") then
    (approvals, prefixActs ++ [ApproveAction.errorNoDownloadUrl])
  else
    (approvals, prefixActs ++
      [ApproveAction.addTorrentSubmitted selected.download_url,
       ApproveAction.dmUserApproved, ApproveAction.adminConfirm])

/-- The match test of `_notify_bot_completion` (`qbit_monitor.py` lines
195-196): `stored_hash = data.get("torrent_hash")` followed by
`if stored_hash and stored_hash == torrent_hash`. Python truthiness of a
string is non-emptiness. -/
def storedHashMatches (stored : Option String) (queried : String) : Bool :=
  match stored with
  | none => false
  | some s => (!(s == (""))) && s == queried

/-- The search loop of `_notify_bot_completion` (`qbit_monitor.py` lines
189-200): first approval, in dict order, whose stored hash matches. -/
def findApprovalByHash (approvals : List (String × ApprovalRecord))
    (torrent_hash : String) : Option (String × ApprovalRecord) :=
  approvals.find? (fun q => storedHashMatches q.2.torrent_hash torrent_hash)

/-- The outcome of `_notify_bot_completion` visible to the rest of the
system. -/
inductive NotifyResult
  | warnNoApprovalsDb
  | warnNoApproval
  | warnNoMessageIds
  | updatedUserMessage (user_channel_id : Nat) (user_message_id : Nat)
deriving DecidableEq

/-- Python truthiness of an optional integer (`None` and `0` are falsy). -/
def truthyNat : Option Nat → Bool
  | none => false
  | some n => !(n == 0)

/-- `QBitMonitor._notify_bot_completion` (`qbit_monitor.py` lines 175-265):
no approvals db on the cog ⇒ warn and return; no approval whose stored
`torrent_hash` equals the completed hash ⇒ warn and return; otherwise the
user's message is fetched and edited through the stored handles when both
are truthy, else a warning. No ledger record is mutated on any path, so
the ledger is returned unchanged. -/
def notifyBotCompletion (hasApprovalsDb : Bool)
    (approvals : List (String × ApprovalRecord)) (torrent_hash : String) :
    NotifyResult × List (String × ApprovalRecord) :=
  if !hasApprovalsDb then (NotifyResult.warnNoApprovalsDb, approvals)
  else
    match findApprovalByHash approvals torrent_hash with
    | none => (NotifyResult.warnNoApproval, approvals)
    | some q =>
        if truthyNat q.2.user_message_id && truthyNat q.2.user_channel_id then
          (NotifyResult.updatedUserMessage
            (q.2.user_channel_id.getD 0) (q.2.user_message_id.getD 0), approvals)
        else
          (NotifyResult.warnNoMessageIds, approvals)

/-- State of a persisted store's backing file at load time: absent,
present but not parseable as JSON, or parsed into a payload. -/
inductive StoreFile (α : Type)
  | missing
  | unparseable
  | parsed (data : α)

/-- `PendingApprovalsDB._load` (`scripts/pending_approvals.py` lines
34-43): a missing file yields `{}`, a file whose open/parse raises is
caught and yields `{}`, otherwise the parsed map is used. -/
def loadPendingApprovals :
    StoreFile (List (String × ApprovalRecord)) → List (String × ApprovalRecord)
  | StoreFile.missing => []
  | StoreFile.unparseable => []
  | StoreFile.parsed d => d

/-- One record of the book-requests store, from
`scripts/book_requests.py` `add_request` (lines 81-90); the `created_at`
timestamp is kept as the opaque string the caller's clock produced. -/
structure BookRequestRecord where
  isbn : String
  book_title : String
  user_id : Nat
  message_id : Nat
  channel_id : Nat
  request_type : String
  status : String
  created_at : String
deriving DecidableEq

/-- `BookRequestsDB._load` (`scripts/book_requests.py` lines 34-43):
missing or unparseable file yields the empty store. -/
def loadBookRequests :
    StoreFile (List (String × BookRequestRecord)) → List (String × BookRequestRecord)
  | StoreFile.missing => []
  | StoreFile.unparseable => []
  | StoreFile.parsed d => d

/-- One record of the legacy request tracker, from `request_tracking.py`
`add_request_message` (lines 72-82). -/
structure RequestTrackingRecord where
  user_message_id : Nat
  user_id : Nat
  channel_id : Nat
  book_title : String
  request_type : String
  admin_message_id : Option Nat
  admin_channel_id : Option Nat
  status : String
  created_at : String
deriving DecidableEq

/-- `RequestTrackingDB._load` (`request_tracking.py` lines 30-39):
missing or unparseable file yields the empty store. -/
def loadRequestTracking :
    StoreFile (List (String × RequestTrackingRecord)) → List (String × RequestTrackingRecord)
  | StoreFile.missing => []
  | StoreFile.unparseable => []
  | StoreFile.parsed d => d

/-- `QBitMonitor._load_processed_hashes` (`qbit_monitor.py` lines 43-54):
missing file ⇒ empty set; any exception while opening/parsing ⇒ logged
warning and empty set; otherwise `data.get("processed_hashes", [])`, whose
inner `Option` models the key being absent from the parsed document. -/
def loadProcessedHashes : StoreFile (Option (List String)) → List String
  | StoreFile.missing => []
  | StoreFile.unparseable => []
  | StoreFile.parsed none => []
  | StoreFile.parsed (some hs) => hs

/-- The key derivation of `BookRequestsDB.add_request`
(`scripts/book_requests.py` line 79): `key = isbn if isbn else
book_title.lower()` — the ISBN when truthy (non-empty), else the
lowercased title. -/
def bookRequestKey (isbn : String) (book_title : String) : String :=
  if isbn = ("") then book_title.toLower else isbn

/-- The record built by `BookRequestsDB.add_request`
(`scripts/book_requests.py` lines 81-90), with status `"pending"` and the
caller's current timestamp. -/
def mkBookRequestRecord (isbn book_title : String) (user_id message_id channel_id : Nat)
    (request_type : String) (now : String) : BookRequestRecord :=
  { isbn := isbn
    book_title := book_title
    user_id := user_id
    message_id := message_id
    channel_id := channel_id
    request_type := request_type
    status := ("pending")
    created_at := now }

/-- `BookRequestsDB.add_request` (`scripts/book_requests.py` lines
54-96): unconditional dict assignment under the derived key (an existing
record under the same key is replaced wholesale), persist, return `True`;
the `except` branch is unreachable for the pure assignment modelled
here. -/
def addRequest (d : List (String × BookRequestRecord))
    (isbn book_title : String) (user_id message_id channel_id : Nat)
    (request_type : String) (now : String) :
    List (String × BookRequestRecord) × Bool :=
  (dictSet d (bookRequestKey isbn book_title)
    (mkBookRequestRecord isbn book_title user_id message_id channel_id request_type now),
   true)

/-- Python substring containment over character lists:
`needle in haystack` holds when `needle` occurs contiguously. -/
def charsContain (needle : List Char) : List Char → Bool
  | [] => needle.isEmpty
  | c :: rest => needle.isPrefixOf (c :: rest) || charsContain needle rest

/-- Python `needle in haystack` for strings, as used in
`qbit_client.py` line 169 (`torrent_input in str(torrent.name)`). -/
def strContains (haystack needle : String) : Bool :=
  charsContain needle.toList haystack.toList

/-- The verification loop of `QBittorrentClient.add_torrent`
(`qbit_client.py` lines 164-175): first torrent of the full listing whose
magnet URI equals the input or whose name contains the input as a
substring. -/
def findAddedTorrent (torrent_input : String) (torrents : List TorrentInfo) :
    Option TorrentInfo :=
  torrents.find? (fun t => t.magnet_uri == torrent_input || strContains t.name torrent_input)

/-- `QBittorrentClient.add_torrent` (`qbit_client.py` lines 134-179).
`submission` is the observable result of the connect + `torrents_add` +
`torrents_info` interaction with the client: an exception anywhere in that
span (`Except.error`), or the full listing obtained after submission
(`Except.ok`). Returns the matched torrent's hash, `none` when the added
torrent cannot be verified in the listing (lines 174-175), and `none` on
any exception (lines 177-179) instead of raising. -/
def add_torrent (torrent_input : String)
    (submission : Except Unit (List TorrentInfo)) : Option String :=
  match submission with
  | Except.error _ => none
  | Except.ok torrents =>
      match findAddedTorrent torrent_input torrents with
      | some t => some t.hash
      | none => none

/-- Sample completed torrent in the managed category (hash `AAA`). -/
def torrentA : TorrentInfo :=
  ⟨("AAA"), ("Project Hail Mary [Audiobook]"), TorrentState.seeding, 1,
   ("librarian-bot"), ("/downloads/completed/MAM"), ("magnet:?xt=urn:btih:aaa")⟩

/-- Sample completed torrent in the managed category (hash `BBB`). -/
def torrentB : TorrentInfo :=
  ⟨("BBB"), ("Dune Messiah [epub]"), TorrentState.seeding, 1,
   ("librarian-bot"), ("/downloads/completed/MAM"), ("magnet:?xt=urn:btih:bbb")⟩

/-- Sample torrent still downloading (hash `CCC`, progress 0). -/
def torrentC : TorrentInfo :=
  ⟨("CCC"), ("Children of Dune [epub]"), TorrentState.downloading, 0,
   ("librarian-bot"), ("/downloads/completed/MAM"), ("magnet:?xt=urn:btih:ccc")⟩

/-- Sample torrent first observed already in seeding state, at progress
strictly below 1 (metadata still resolving), hash `DDD`. -/
def torrentD : TorrentInfo :=
  ⟨("DDD"), ("The Martian [Audiobook]"), TorrentState.seeding, 0,
   ("librarian-bot"), ("/downloads/completed/MAM"), ("magnet:?xt=urn:btih:ddd")⟩

/-- Sample release with 12 seeders, listed first by the indexer search. -/
def releaseLow : SearchResult :=
  ⟨("Dune (Herbert) [epub] v1"), ("magnet:?xt=urn:btih:low"), 12, 1, 900000,
   ("IndexerA"), ("2024-01-01"), ("guid-low")⟩

/-- Sample release with 50 seeders, listed second by the indexer search. -/
def releaseHigh : SearchResult :=
  ⟨("Dune (Herbert) [epub] v2"), ("magnet:?xt=urn:btih:high"), 50, 3, 950000,
   ("IndexerB"), ("2024-01-02"), ("guid-high")⟩

/-- Sample approvals ledger holding the single pending approval `appr-1`
for the book whose release `releaseHigh` was selected, as created by
`add_approval` (no `torrent_hash` key, status `"pending"`). -/
def sampleApprovals : List (String × ApprovalRecord) :=
  (addApproval [] ("appr-1") 42 ("Project Hail Mary") ("audiobook")
    [releaseLow, releaseHigh] releaseHigh 1111 2222 (some 3333) (some 4444)).1

/-- An approval record as it would look if the approve path recorded the
download-job identifier `J1` and flipped the status, i.e. the state the
completion notifier needs in order to match. -/
def approvedRecord : ApprovalRecord :=
  { user_id := 42
    book_title := ("Project Hail Mary")
    request_type := ("audiobook")
    torrent_results := [releaseLow, releaseHigh]
    selected_torrent := releaseHigh
    message_id := 1111
    channel_id := 2222
    user_message_id := some 3333
    user_channel_id := some 4444
    status := ("approved")
    torrent_hash := some ("J1") }

/-- A one-record ledger holding `approvedRecord` under id `appr-1`. -/
def notifiableApprovals : List (String × ApprovalRecord) :=
  [(("appr-1"), approvedRecord)]

/-- Arguments of one `BookRequestsDB.add_request` call. -/
structure AddRequestCall where
  isbn : String
  book_title : String
  user_id : Nat
  message_id : Nat
  channel_id : Nat
  request_type : String
  now : String

/-- A sequence of `add_request` calls applied to the empty store. -/
def addRequests (calls : List AddRequestCall) : List (String × BookRequestRecord) :=
  calls.foldl
    (fun d c =>
      (addRequest d c.isbn c.book_title c.user_id c.message_id c.channel_id
        c.request_type c.now).1)
    []

/-! Helper lemmas about the poller tick. -/

/-- Every effect a tick emits belongs to a job that was not yet in the
processed set when the tick started. -/
theorem processTorrents_jobHash_not_mem (o : String → Bool) :
    ∀ (ts : List TorrentInfo) (p : List String),
      ∀ e ∈ (processTorrents o p ts).2, e.jobHash ∉ p := by
  intro ts
  induction ts with
  | nil => intro p e he; simp [processTorrents] at he
  | cons t rest ih =>
    intro p e he
    simp only [processTorrents] at he
    split_ifs at he with hmem hc hr
    · exact ih p e he
    · simp only [List.mem_singleton] at he
      subst he
      exact hmem
    · simp only [List.mem_cons] at he
      rcases he with h1 | h2 | h3 | he'
      · subst h1; exact hmem
      · subst h2; exact hmem
      · subst h3; exact hmem
      · intro hin
        exact ih (p ++ [t.hash]) e he' (List.mem_append_left _ hin)
    · exact ih p e he

/-- Every effect a tick emits belongs to a job of the observed listing. -/
theorem processTorrents_jobHash_mem (o : String → Bool) :
    ∀ (ts : List TorrentInfo) (p : List String),
      ∀ e ∈ (processTorrents o p ts).2, e.jobHash ∈ ts.map TorrentInfo.hash := by
  intro ts
  induction ts with
  | nil => intro p e he; simp [processTorrents] at he
  | cons t rest ih =>
    intro p e he
    simp only [processTorrents] at he
    simp only [List.map_cons, List.mem_cons]
    split_ifs at he with hmem hc hr
    · exact Or.inr (ih p e he)
    · simp only [List.mem_singleton] at he
      subst he
      exact Or.inl rfl
    · simp only [List.mem_cons] at he
      rcases he with h1 | h2 | h3 | he'
      · subst h1; exact Or.inl rfl
      · subst h2; exact Or.inl rfl
      · subst h3; exact Or.inl rfl
      · exact Or.inr (ih (p ++ [t.hash]) e he')
    · exact Or.inr (ih p e he)

/-- A hash is in the processed set after a tick iff it was already in the
set or the tick emitted a `markProcessed` for it. -/
theorem mem_processTorrents_fst (o : String → Bool) :
    ∀ (ts : List TorrentInfo) (p : List String) (J : String),
      J ∈ (processTorrents o p ts).1 ↔
        J ∈ p ∨ (⟨J, EventKind.markProcessed⟩ : Event) ∈ (processTorrents o p ts).2 := by
  intro ts
  induction ts with
  | nil => intro p J; simp [processTorrents]
  | cons t rest ih =>
    intro p J
    simp only [processTorrents]
    split_ifs with hmem hc hr
    · exact ih p J
    · simp [Event.mk.injEq]
    · simp [ih (p ++ [t.hash]) J]
      tauto
    · exact ih p J

/-- A single tick emits at most one `markProcessed` per hash. -/
theorem processTorrents_count_mark_le_one (o : String → Bool) :
    ∀ (ts : List TorrentInfo) (p : List String) (J : String),
      (processTorrents o p ts).2.count (⟨J, EventKind.markProcessed⟩ : Event) ≤ 1 := by
  intro ts
  induction ts with
  | nil => intro p J; simp [processTorrents]
  | cons t rest ih =>
    intro p J
    simp only [processTorrents]
    split_ifs with hmem hc hr
    · exact ih p J
    · simp [List.count_singleton]
    · by_cases hJ : J = t.hash
      · subst hJ
        have h0 : (processTorrents o (p ++ [t.hash]) rest).2.count
            (⟨t.hash, EventKind.markProcessed⟩ : Event) = 0 := by
          rw [List.count_eq_zero]
          intro hmem'
          exact processTorrents_jobHash_not_mem o rest (p ++ [t.hash])
            _ hmem' (List.mem_append_right _ (List.mem_singleton.mpr rfl))
        simp [List.count_cons, h0]
      · have hJ' : t.hash ≠ J := fun h => hJ h.symm
        simpa [List.count_cons, hJ, hJ'] using ih (p ++ [t.hash]) J
    · exact ih p J

/-- A hash already processed before a tick is untouched by that tick: the
tick emits no effect for it and it stays in the processed set. -/
theorem processTorrents_skips_processed (o : String → Bool)
    (ts : List TorrentInfo) (p : List String) (J : String) (hJ : J ∈ p) :
    (processTorrents o p ts).2.filter (fun e => e.jobHash == J) = [] ∧
      J ∈ (processTorrents o p ts).1 := by
  constructor
  · rw [List.filter_eq_nil_iff]
    intro e he
    simp only [beq_iff_eq]
    intro hEq
    exact processTorrents_jobHash_not_mem o ts p e he (hEq ▸ hJ)
  · rw [mem_processTorrents_fst]
    exact Or.inl hJ

/-- Tick-level version of `processTorrents_skips_processed`. -/
theorem checkCompletedDownloads_skips_processed (c : Bool) (o : String → Bool)
    (p : List String) (torrents : List TorrentInfo) (J : String) (hJ : J ∈ p) :
    (checkCompletedDownloads c o p torrents).2.filter (fun e => e.jobHash == J) = [] ∧
      J ∈ (checkCompletedDownloads c o p torrents).1 := by
  unfold checkCompletedDownloads
  split_ifs with hc
  · exact processTorrents_skips_processed o _ p J hJ
  · simpa using hJ

/-- Tick-level membership characterisation. -/
theorem mem_checkCompletedDownloads_fst (c : Bool) (o : String → Bool)
    (p : List String) (torrents : List TorrentInfo) (J : String) :
    J ∈ (checkCompletedDownloads c o p torrents).1 ↔
      J ∈ p ∨ (⟨J, EventKind.markProcessed⟩ : Event) ∈ (checkCompletedDownloads c o p torrents).2 := by
  unfold checkCompletedDownloads
  split_ifs with hc
  · exact mem_processTorrents_fst o _ p J
  · simp

/-- Tick-level mark count bound. -/
theorem checkCompletedDownloads_count_mark_le_one (c : Bool) (o : String → Bool)
    (p : List String) (torrents : List TorrentInfo) (J : String) :
    (checkCompletedDownloads c o p torrents).2.count (⟨J, EventKind.markProcessed⟩ : Event) ≤ 1 := by
  unfold checkCompletedDownloads
  split_ifs with hc
  · exact processTorrents_count_mark_le_one o _ p J
  · simp

/-- Over a run of ticks, a hash that starts in the processed set stays
there and is never marked again. -/
theorem runTicks_processed_stays (J : String) :
    ∀ (ins : List TickInput) (p : List String), J ∈ p →
      (runTicks p ins).2.count (⟨J, EventKind.markProcessed⟩ : Event) = 0 ∧
        J ∈ (runTicks p ins).1 := by
  intro ins
  induction ins with
  | nil => intro p hJ; simpa [runTicks] using hJ
  | cons i rest ih =>
    intro p hJ
    simp only [runTicks, List.count_append]
    have hskip := checkCompletedDownloads_skips_processed i.connected i.notifyRaises p i.torrents J hJ
    have hcnt : (checkCompletedDownloads i.connected i.notifyRaises p i.torrents).2.count
        (⟨J, EventKind.markProcessed⟩ : Event) = 0 := by
      rw [List.count_eq_zero]
      intro hmem
      have : ((⟨J, EventKind.markProcessed⟩ : Event) :: []).length = 0 := by
        have hfil := hskip.1
        have : (⟨J, EventKind.markProcessed⟩ : Event) ∈
            (checkCompletedDownloads i.connected i.notifyRaises p i.torrents).2.filter
              (fun e => e.jobHash == J) := by
          rw [List.mem_filter]
          exact ⟨hmem, by simp⟩
        rw [hfil] at this
        simp at this
      simp at this
    have hrest := ih _ hskip.2
    exact ⟨by rw [hcnt, hrest.1], hrest.2⟩

/-- Over any run of ticks from any starting processed set, a given hash is
marked processed at most once. -/
theorem runTicks_count_mark_le_one (J : String) :
    ∀ (ins : List TickInput) (p : List String),
      (runTicks p ins).2.count (⟨J, EventKind.markProcessed⟩ : Event) ≤ 1 := by
  intro ins
  induction ins with
  | nil => intro p; simp [runTicks]
  | cons i rest ih =>
    intro p
    simp only [runTicks, List.count_append]
    by_cases hmark : (⟨J, EventKind.markProcessed⟩ : Event) ∈
        (checkCompletedDownloads i.connected i.notifyRaises p i.torrents).2
    · have hJ' : J ∈ (checkCompletedDownloads i.connected i.notifyRaises p i.torrents).1 := by
        rw [mem_checkCompletedDownloads_fst]
        exact Or.inr hmark
      have hrest := (runTicks_processed_stays J rest _ hJ').1
      have htick := checkCompletedDownloads_count_mark_le_one i.connected i.notifyRaises p i.torrents J
      omega
    · have htick : (checkCompletedDownloads i.connected i.notifyRaises p i.torrents).2.count
          (⟨J, EventKind.markProcessed⟩ : Event) = 0 := List.count_eq_zero.mpr hmark
      have hrest := ih (checkCompletedDownloads i.connected i.notifyRaises p i.torrents).1
      omega

/-- The empty trace satisfies the mark-ordering discipline. -/
theorem marksGuarded_nil : MarksGuarded [] := by
  intro l₁ l₂ h heq
  exact absurd heq (by simp)

/-- Prepending a non-mark event preserves the mark-ordering discipline. -/
theorem marksGuarded_cons_nonmark (e : Event) (evs : List Event)
    (hk : ∀ h, e ≠ ⟨h, EventKind.markProcessed⟩) (hevs : MarksGuarded evs) :
    MarksGuarded (e :: evs) := by
  intro l₁ l₂ h heq
  cases l₁ with
  | nil =>
    simp only [List.nil_append, List.cons.injEq] at heq
    exact absurd heq.1 (hk h)
  | cons a l₁' =>
    simp only [List.cons_append, List.cons.injEq] at heq
    obtain ⟨l₀, nm, sp, hl⟩ := hevs l₁' l₂ h heq.2
    exact ⟨a :: l₀, nm, sp, by simp [hl]⟩

/-- Prepending a complete organize/notify/mark block preserves the
mark-ordering discipline. -/
theorem marksGuarded_block (hsh nm sp : String) (evs : List Event)
    (hevs : MarksGuarded evs) :
    MarksGuarded (⟨hsh, EventKind.organize nm sp⟩ ::
      ⟨hsh, EventKind.notify nm⟩ :: ⟨hsh, EventKind.markProcessed⟩ :: evs) := by
  intro l₁ l₂ h heq
  match l₁ with
  | [] =>
    simp only [List.nil_append, List.cons.injEq] at heq
    exact absurd heq.1.symm (by simp)
  | [a] =>
    simp only [List.cons_append, List.nil_append, List.cons.injEq] at heq
    exact absurd heq.2.1.symm (by simp)
  | [a, b] =>
    simp only [List.cons_append, List.nil_append, List.cons.injEq] at heq
    refine ⟨[], nm, sp, ?_⟩
    have hh : h = hsh := by
      have := heq.2.2.1
      simp [Event.mk.injEq] at this
      exact this.symm
    simp [heq.1, heq.2.1, hh]
  | a :: b :: c :: l₁' =>
    simp only [List.cons_append, List.cons.injEq] at heq
    obtain ⟨l₀, nm', sp', hl⟩ := hevs l₁' l₂ h heq.2.2.2
    exact ⟨a :: b :: c :: l₀, nm', sp', by simp [heq.1, heq.2.1, heq.2.2.1, hl]⟩

/-- Every trace a tick can emit obeys the mark-ordering discipline:
a processed-set insertion for a job is always immediately preceded by the
organize call and the notify call for that same job. -/
theorem processTorrents_marksGuarded (o : String → Bool) :
    ∀ (ts : List TorrentInfo) (p : List String),
      MarksGuarded (processTorrents o p ts).2 := by
  intro ts
  induction ts with
  | nil => intro p; simpa [processTorrents] using marksGuarded_nil
  | cons t rest ih =>
    intro p
    simp only [processTorrents]
    split_ifs with hmem hc hr
    · exact ih p
    · exact marksGuarded_cons_nonmark _ _ (fun h => by simp) marksGuarded_nil
    · exact marksGuarded_block t.hash t.name t.save_path _ (ih (p ++ [t.hash]))
    · exact ih p

/-- Step lemma: an already-processed torrent is skipped. -/
theorem processTorrents_cons_skip (o : String → Bool) (p : List String)
    (t : TorrentInfo) (ts : List TorrentInfo) (hmem : t.hash ∈ p) :
    processTorrents o p (t :: ts) = processTorrents o p ts := by
  simp only [processTorrents, if_pos hmem]

/-- Step lemma: an incomplete torrent contributes nothing. -/
theorem processTorrents_cons_incomplete (o : String → Bool) (p : List String)
    (t : TorrentInfo) (ts : List TorrentInfo) (hmem : t.hash ∉ p)
    (hc : isCompletedDownload t = false) :
    processTorrents o p (t :: ts) = processTorrents o p ts := by
  simp only [processTorrents, if_neg hmem, hc, Bool.false_eq_true, if_false]

/-- Step lemma: a newly complete torrent whose notify succeeds contributes
its organize/notify/mark block and joins the processed set. -/
theorem processTorrents_cons_complete (o : String → Bool) (p : List String)
    (t : TorrentInfo) (ts : List TorrentInfo) (hmem : t.hash ∉ p)
    (hc : isCompletedDownload t = true) (hr : o t.hash = false) :
    processTorrents o p (t :: ts) =
      ((processTorrents o (p ++ [t.hash]) ts).1,
       ⟨t.hash, EventKind.organize t.name t.save_path⟩ ::
         ⟨t.hash, EventKind.notify t.name⟩ ::
           ⟨t.hash, EventKind.markProcessed⟩ ::
             (processTorrents o (p ++ [t.hash]) ts).2) := by
  simp only [processTorrents, if_neg hmem, hc, hr, eq_self_iff_true, if_true,
    Bool.false_eq_true, if_false]

/-- Step lemma: a newly complete torrent whose notify raises ends the tick
with only its organize call emitted and the processed set unchanged. -/
theorem processTorrents_cons_raise (o : String → Bool) (p : List String)
    (t : TorrentInfo) (ts : List TorrentInfo) (hmem : t.hash ∉ p)
    (hc : isCompletedDownload t = true) (hr : o t.hash = true) :
    processTorrents o p (t :: ts) =
      (p, [⟨t.hash, EventKind.organize t.name t.save_path⟩]) := by
  simp only [processTorrents, if_neg hmem, hc, hr, eq_self_iff_true, if_true]

/-- If the notify oracle does not fire on any observed torrent, the tick
behaves exactly like an exception-free tick. -/
theorem processTorrents_oracle_irrel (o : String → Bool) :
    ∀ (ts : List TorrentInfo) (p : List String), (∀ u ∈ ts, o u.hash = false) →
      processTorrents o p ts = processTorrents (fun _ => false) p ts := by
  intro ts
  induction ts with
  | nil => intro p _; simp [processTorrents]
  | cons t rest ih =>
    intro p hno
    have ht : o t.hash = false := hno t (List.mem_cons_self t rest)
    have hrest : ∀ u ∈ rest, o u.hash = false := fun u hu => hno u (List.mem_cons_of_mem t hu)
    by_cases hmem : t.hash ∈ p
    · rw [processTorrents_cons_skip o p t rest hmem,
        processTorrents_cons_skip (fun _ => false) p t rest hmem]
      exact ih p hrest
    · cases hc : isCompletedDownload t with
      | false =>
        rw [processTorrents_cons_incomplete o p t rest hmem hc,
          processTorrents_cons_incomplete (fun _ => false) p t rest hmem hc]
        exact ih p hrest
      | true =>
        rw [processTorrents_cons_complete o p t rest hmem hc ht,
          processTorrents_cons_complete (fun _ => false) p t rest hmem hc rfl]
        rw [ih (p ++ [t.hash]) hrest]

/-- Shape of a tick in which the notify call for torrent `t` raises: the
torrents before `t` are processed exactly as usual, `t` contributes only
its organize call (no notify, no processed-set insertion), and the
torrents after `t` contribute nothing at all. -/
theorem processTorrents_abort (o : String → Bool) :
    ∀ (pre : List TorrentInfo) (p : List String) (t : TorrentInfo) (post : List TorrentInfo),
      (∀ u ∈ pre, o u.hash = false) → o t.hash = true →
      t.hash ∉ (processTorrents o p pre).1 → isCompletedDownload t = true →
      processTorrents o p (pre ++ t :: post) =
        ((processTorrents o p pre).1,
         (processTorrents o p pre).2 ++ [⟨t.hash, EventKind.organize t.name t.save_path⟩]) := by
  intro pre
  induction pre with
  | nil =>
    intro p t post _ hot hnp hc
    simp only [processTorrents, List.nil_append] at hnp
    rw [List.nil_append, processTorrents_cons_raise o p t post hnp hc hot]
    simp [processTorrents]
  | cons u pre' ih =>
    intro p t post hno hot hnp hc
    have hu : o u.hash = false := hno u (List.mem_cons_self u pre')
    have hpre' : ∀ v ∈ pre', o v.hash = false := fun v hv => hno v (List.mem_cons_of_mem u hv)
    rw [List.cons_append]
    by_cases hmem : u.hash ∈ p
    · rw [processTorrents_cons_skip o p u pre' hmem] at hnp
      rw [processTorrents_cons_skip o p u (pre' ++ t :: post) hmem,
        processTorrents_cons_skip o p u pre' hmem]
      exact ih p t post hpre' hot hnp hc
    · cases hcu : isCompletedDownload u with
      | false =>
        rw [processTorrents_cons_incomplete o p u pre' hmem hcu] at hnp
        rw [processTorrents_cons_incomplete o p u (pre' ++ t :: post) hmem hcu,
          processTorrents_cons_incomplete o p u pre' hmem hcu]
        exact ih p t post hpre' hot hnp hc
      | true =>
        rw [processTorrents_cons_complete o p u pre' hmem hcu hu] at hnp
        simp only at hnp
        rw [processTorrents_cons_complete o p u (pre' ++ t :: post) hmem hcu hu,
          processTorrents_cons_complete o p u pre' hmem hcu hu]
        rw [ih (p ++ [u.hash]) t post hpre' hot hnp hc]
        simp

/-- In an exception-free tick over a listing with distinct hashes, a
not-yet-processed torrent gets its organize/notify/mark effects iff the
completion test holds for it. -/
theorem processTorrents_completion_iff :
    ∀ (ts : List TorrentInfo) (p : List String) (t : TorrentInfo),
      (ts.map TorrentInfo.hash).Nodup → t ∈ ts → t.hash ∉ p →
      (((⟨t.hash, EventKind.organize t.name t.save_path⟩ : Event) ∈
          (processTorrents (fun _ => false) p ts).2 ∧
        (⟨t.hash, EventKind.notify t.name⟩ : Event) ∈
          (processTorrents (fun _ => false) p ts).2 ∧
        (⟨t.hash, EventKind.markProcessed⟩ : Event) ∈
          (processTorrents (fun _ => false) p ts).2) ↔
        isCompletedDownload t = true) := by
  intro ts
  induction ts with
  | nil => intro p t _ ht; exact absurd ht (List.not_mem_nil t)
  | cons u rest ih =>
    intro p t hnd htmem hnp
    have hnd' : (rest.map TorrentInfo.hash).Nodup := (List.nodup_cons.mp hnd).2
    have hufresh : u.hash ∉ rest.map TorrentInfo.hash := (List.nodup_cons.mp hnd).1
    rcases List.mem_cons.mp htmem with rfl | htrest
    · by_cases hc : isCompletedDownload t = true
      · rw [processTorrents_cons_complete (fun _ => false) p t rest hnp hc rfl]
        simp [hc]
      · have hc' : isCompletedDownload t = false := by simpa using hc
        rw [processTorrents_cons_incomplete (fun _ => false) p t rest hnp hc']
        refine iff_of_false ?_ hc
        intro hx
        exact hufresh (processTorrents_jobHash_mem (fun _ => false) rest p _ hx.1)
    · have htne : u.hash ≠ t.hash := by
        intro h
        exact hufresh (h ▸ List.mem_map_of_mem TorrentInfo.hash htrest)
      by_cases hmem : u.hash ∈ p
      · rw [processTorrents_cons_skip (fun _ => false) p u rest hmem]
        exact ih p t hnd' htrest hnp
      · cases hcu : isCompletedDownload u with
        | false =>
          rw [processTorrents_cons_incomplete (fun _ => false) p u rest hmem hcu]
          exact ih p t hnd' htrest hnp
        | true =>
          rw [processTorrents_cons_complete (fun _ => false) p u rest hmem hcu rfl]
          have htne' : t.hash ≠ u.hash := fun h => htne h.symm
          have hnp' : t.hash ∉ p ++ [u.hash] := by simp [hnp, htne']
          have hih := ih (p ++ [u.hash]) t hnd' htrest hnp'
          simpa [List.mem_cons, Event.mk.injEq, htne'] using hih

/-! Helper lemmas about the modelled Python dicts. -/

/-- Assignment followed by lookup of the same key returns the new value. -/
theorem dictGet_dictSet_self {α : Type} :
    ∀ (d : List (String × α)) (k : String) (v : α),
      dictGet (dictSet d k v) k = some v := by
  intro d
  induction d with
  | nil => intro k v; simp [dictGet, dictSet]
  | cons q rest ih =>
    intro k v
    by_cases hq : q.1 = k
    · simp [dictSet, dictGet, hq]
    · simp only [dictSet, dictGet, beq_iff_eq, hq, if_false, if_neg hq]
      exact ih k v

/-- A key present after assignment was present before or is the assigned
key. -/
theorem mem_dictKeys_dictSet {α : Type} :
    ∀ (d : List (String × α)) (k : String) (v : α) (a : String),
      a ∈ dictKeys (dictSet d k v) → a ∈ dictKeys d ∨ a = k := by
  intro d
  induction d with
  | nil => intro k v a ha; simp [dictSet, dictKeys] at ha; exact Or.inr ha
  | cons q rest ih =>
    intro k v a ha
    by_cases hq : q.1 = k
    · simp only [dictSet, beq_iff_eq, hq, if_true, eq_self_iff_true] at ha
      simp only [dictKeys, List.map_cons, List.mem_cons] at ha ⊢
      rcases ha with h | h
      · exact Or.inr h
      · exact Or.inl (Or.inr h)
    · simp only [dictSet, beq_iff_eq, hq, if_false] at ha
      simp only [dictKeys, List.map_cons, List.mem_cons] at ha ⊢
      rcases ha with h | h
      · exact Or.inl (Or.inl h)
      · rcases ih k v a h with h' | h'
        · exact Or.inl (Or.inr h')
        · exact Or.inr h'

/-- Assignment preserves key uniqueness of the modelled dict. -/
theorem dictKeys_dictSet_nodup {α : Type} :
    ∀ (d : List (String × α)) (k : String) (v : α),
      (dictKeys d).Nodup → (dictKeys (dictSet d k v)).Nodup := by
  intro d
  induction d with
  | nil => intro k v _; simp [dictSet, dictKeys]
  | cons q rest ih =>
    intro k v hnd
    simp only [dictKeys, List.map_cons, List.nodup_cons] at hnd
    by_cases hq : q.1 = k
    · simp only [dictSet, beq_iff_eq, hq, if_true, eq_self_iff_true]
      simp only [dictKeys, List.map_cons, List.nodup_cons]
      exact ⟨hq ▸ hnd.1, hnd.2⟩
    · simp only [dictSet, beq_iff_eq, hq, if_false]
      simp only [dictKeys, List.map_cons, List.nodup_cons]
      refine ⟨?_, ih k v hnd.2⟩
      intro hbad
      rcases mem_dictKeys_dictSet rest k v q.1 hbad with h | h
      · exact hnd.1 h
      · exact hq h

/-- `charsContain` is exactly contiguous-substring occurrence, i.e. the
semantics of Python's `in` operator on strings. -/
theorem charsContain_iff (needle : List Char) :
    ∀ haystack : List Char,
      charsContain needle haystack = true ↔
        ∃ pre post, haystack = pre ++ needle ++ post := by
  intro haystack
  induction haystack with
  | nil =>
    constructor
    · intro h
      have hne : needle = [] := by simpa [charsContain, List.isEmpty_iff] using h
      exact ⟨[], [], by simp [hne]⟩
    · rintro ⟨pre, post, h⟩
      have h' := h.symm
      rw [List.append_assoc] at h'
      rcases List.append_eq_nil.mp h' with ⟨hp, hrest⟩
      rcases List.append_eq_nil.mp hrest with ⟨hn, _⟩
      simp [charsContain, List.isEmpty_iff, hn]
  | cons c rest ih =>
    constructor
    · intro h
      have h' : needle.isPrefixOf (c :: rest) = true ∨ charsContain needle rest = true := by
        have hb : (needle.isPrefixOf (c :: rest) || charsContain needle rest) = true := by
          simpa [charsContain] using h
        simpa [Bool.or_eq_true] using hb
      rcases h' with hp | hcc
      · obtain ⟨t, ht⟩ := List.isPrefixOf_iff_prefix.mp hp
        exact ⟨[], t, by simp [ht.symm]⟩
      · obtain ⟨pre, post, hh⟩ := ih.mp hcc
        exact ⟨c :: pre, post, by simp [hh]⟩
    · rintro ⟨pre, post, hh⟩
      cases pre with
      | nil =>
        simp only [List.nil_append] at hh
        have hp : needle.isPrefixOf (c :: rest) = true :=
          List.isPrefixOf_iff_prefix.mpr ⟨post, hh.symm⟩
        simp [charsContain, hp]
      | cons c' pre' =>
        simp only [List.cons_append, List.cons.injEq] at hh
        have hcc := ih.mpr ⟨pre', post, hh.2⟩
        simp [charsContain, hcc]

/-- Any sequence of `add_request` calls starting from the empty store
keeps the store's keys unique. -/
theorem addRequests_keys_nodup_aux :
    ∀ (calls : List AddRequestCall) (d : List (String × BookRequestRecord)),
      (dictKeys d).Nodup →
      (dictKeys (calls.foldl
        (fun d c =>
          (addRequest d c.isbn c.book_title c.user_id c.message_id c.channel_id
            c.request_type c.now).1)
        d)).Nodup := by
  intro calls
  induction calls with
  | nil => intro d hd; simpa using hd
  | cons c rest ih =>
    intro d hd
    simp only [List.foldl_cons]
    exact ih _ (dictKeys_dictSet_nodup d _ _ hd)

/-! The ten claims. -/

/-- C1: for a job identifier already in the Processed-Jobs Set, any
completion-detection tick (the job observed in the managed category in any
state at any progress, under any connection outcome and any notify
failures) emits zero organize and zero notify invocations for it and
leaves its membership unchanged; over any sequence of ticks, a job
identifier is added to the set at most once. -/
theorem c1_processed_jobs_idempotent (J : String) :
    (∀ (connected : Bool) (o : String → Bool) (p : List String)
        (torrents : List TorrentInfo), J ∈ p →
      (checkCompletedDownloads connected o p torrents).2.filter
          (fun e => e.jobHash == J) = [] ∧
        J ∈ (checkCompletedDownloads connected o p torrents).1) ∧
    (∀ (p₀ : List String) (ins : List TickInput),
      (runTicks p₀ ins).2.count (⟨J, EventKind.markProcessed⟩ : Event) ≤ 1) := by
  constructor
  · intro c o p ts hJ
    exact checkCompletedDownloads_skips_processed c o p ts J hJ
  · intro p₀ ins
    exact runTicks_count_mark_le_one J ins p₀

/-- C1 witness: hash `AAA` already processed, its seeding torrent observed
again — no effects for it, membership preserved. -/
theorem c1_witness :
    (checkCompletedDownloads true (fun _ => false) [("AAA")] [torrentA]).2.filter
        (fun e => e.jobHash == ("AAA")) = [] ∧
      ("AAA") ∈ (checkCompletedDownloads true (fun _ => false) [("AAA")] [torrentA]).1 :=
  (c1_processed_jobs_idempotent ("AAA")).1 true (fun _ => false) [("AAA")] [torrentA]
    (by decide)

/-- C4: in a poller tick, a managed-category job not yet in the
Processed-Jobs Set receives the organize, notify and mark-processed
effects iff its state is seeding or its progress is at least 1 — in
particular a job first observed already seeding is treated as complete on
that very tick, with no prior `downloading` observation required. -/
theorem c4_completion_condition (p : List String) (torrents : List TorrentInfo)
    (t : TorrentInfo) (hmem : t ∈ torrents)
    (hcat : t.category = ("librarian-bot")) (hnp : t.hash ∉ p)
    (hnd : ((getTorrentsInCategory torrents ("librarian-bot")).map TorrentInfo.hash).Nodup) :
    ((⟨t.hash, EventKind.organize t.name t.save_path⟩ : Event) ∈
        (checkCompletedDownloads true (fun _ => false) p torrents).2 ∧
      (⟨t.hash, EventKind.notify t.name⟩ : Event) ∈
        (checkCompletedDownloads true (fun _ => false) p torrents).2 ∧
      (⟨t.hash, EventKind.markProcessed⟩ : Event) ∈
        (checkCompletedDownloads true (fun _ => false) p torrents).2) ↔
      (t.state = TorrentState.seeding ∨ (1 : ℚ) ≤ t.progress) := by
  have hmem' : t ∈ getTorrentsInCategory torrents ("librarian-bot") := by
    simp [getTorrentsInCategory, List.mem_filter, hmem, hcat]
  have h := processTorrents_completion_iff
    (getTorrentsInCategory torrents ("librarian-bot")) p t hnd hmem' hnp
  simp only [checkCompletedDownloads, if_true, eq_self_iff_true]
  rw [h, isCompletedDownload]
  simp [Bool.or_eq_true, beq_iff_eq, decide_eq_true_iff]

/-- C4 witness: `torrentD` is first observed already seeding at progress 0
in a fresh tick and is marked processed on that tick. -/
theorem c4_witness :
    torrentD.state = TorrentState.seeding ∧ ¬((1 : ℚ) ≤ torrentD.progress) ∧
      (⟨torrentD.hash, EventKind.markProcessed⟩ : Event) ∈
        (checkCompletedDownloads true (fun _ => false) [] [torrentD]).2 := by
  refine ⟨rfl, by decide, ?_⟩
  exact ((c4_completion_condition [] [torrentD] torrentD (by decide) rfl (by decide)
    (by decide)).mpr (Or.inl rfl)).2.2

/-- C5: in every tick trace, for every job marked processed, the organize
invocation and the notify invocation for that same job come immediately
before the processed-set insertion — the insertion never precedes either
attempt. -/
theorem c5_mark_after_organize_notify (connected : Bool) (o : String → Bool)
    (p : List String) (torrents : List TorrentInfo) :
    MarksGuarded (checkCompletedDownloads connected o p torrents).2 := by
  unfold checkCompletedDownloads
  split_ifs
  · exact processTorrents_marksGuarded o _ p
  · exact marksGuarded_nil

/-- C5 witness: in the tick that completes `torrentA`, the events before
its `markProcessed` are exactly its organize and its notify. -/
theorem c5_witness :
    ∃ l₀ nm sp,
      ([⟨torrentA.hash, EventKind.organize torrentA.name torrentA.save_path⟩,
        ⟨torrentA.hash, EventKind.notify torrentA.name⟩] : List Event) =
        l₀ ++ [⟨torrentA.hash, EventKind.organize nm sp⟩,
               ⟨torrentA.hash, EventKind.notify nm⟩] :=
  c5_mark_after_organize_notify true (fun _ => false) [] [torrentA]
    [⟨torrentA.hash, EventKind.organize torrentA.name torrentA.save_path⟩,
     ⟨torrentA.hash, EventKind.notify torrentA.name⟩] [] torrentA.hash (by decide)

/-- C6 counterexample: jobs `AAA` and `BBB` are both complete, in the
managed category and unprocessed; the notify for `AAA` raises, and `BBB` —
later in the same tick's list — is not evaluated at all: the tick emits no
effect for `BBB` and does not mark it processed, refuting per-tick
isolation as claimed. -/
theorem c6_counterexample :
    isCompletedDownload torrentB = true ∧
      torrentB.category = ("librarian-bot") ∧
      ("BBB") ∉ ([] : List String) ∧
      (checkCompletedDownloads true (fun h => h == ("AAA")) [] [torrentA, torrentB]).2.filter
        (fun e => e.jobHash == ("BBB")) = [] ∧
      ("BBB") ∉ (checkCompletedDownloads true (fun h => h == ("AAA")) [] [torrentA, torrentB]).1 := by
  decide

/-- C6 (amended): an exception raised while processing job `t` in a tick
aborts the remainder of that tick — the jobs before `t` in the list are
evaluated exactly as in an exception-free tick, `t` itself contributes
only its organize call and is not marked processed, and the jobs after `t`
contribute nothing — while the poll loop still sleeps and re-ticks
afterwards: only cancellation terminates it. -/
theorem c6_tick_abort_and_loop_survival (o : String → Bool)
    (p : List String) (pre : List TorrentInfo) (t : TorrentInfo)
    (post : List TorrentInfo)
    (hpre : ∀ u ∈ pre, o u.hash = false) (hot : o t.hash = true)
    (hnp : t.hash ∉ (processTorrents o p pre).1)
    (hc : isCompletedDownload t = true) :
    processTorrents o p (pre ++ t :: post) =
      ((processTorrents (fun _ => false) p pre).1,
       (processTorrents (fun _ => false) p pre).2 ++
         [⟨t.hash, EventKind.organize t.name t.save_path⟩]) ∧
    (∀ oc : TickOutcome, monitorLoopStep oc = LoopAction.exitLoop ↔ oc = TickOutcome.cancelled) := by
  constructor
  · rw [processTorrents_abort o pre p t post hpre hot hnp hc,
      processTorrents_oracle_irrel o pre p hpre]
  · intro oc
    cases oc <;> simp [monitorLoopStep]

/-- C6 witness: `torrentD` before the failing `torrentA` is processed as
usual; `torrentB` after it contributes nothing. -/
theorem c6_witness :
    processTorrents (fun h => h == ("AAA")) [] ([torrentD] ++ torrentA :: [torrentB]) =
      ((processTorrents (fun _ => false) [] [torrentD]).1,
       (processTorrents (fun _ => false) [] [torrentD]).2 ++
         [⟨torrentA.hash, EventKind.organize torrentA.name torrentA.save_path⟩]) :=
  (c6_tick_abort_and_loop_survival (fun h => h == ("AAA")) [] [torrentD] torrentA [torrentB]
    (by decide) (by decide) (by decide) (by decide)).1

/-- C2: evaluated at an approve click where the submission to the download
client succeeds and yields job id `J1`, `_handle_admin_approve` leaves the
approvals ledger untouched: the submission action happens, yet no record
receives the job identifier and the approval's status remains `pending`
rather than `approved` — the code discards `add_torrent`'s return value. -/
theorem c2_approve_records_nothing :
    ((handleAdminApprove sampleApprovals releaseHigh true (some ("J1"))).1 = sampleApprovals) ∧
    (ApproveAction.addTorrentSubmitted releaseHigh.download_url ∈
      (handleAdminApprove sampleApprovals releaseHigh true (some ("J1"))).2) ∧
    ((dictGet sampleApprovals ("appr-1")).map ApprovalRecord.status = some ("pending")) ∧
    ((dictGet (handleAdminApprove sampleApprovals releaseHigh true (some ("J1"))).1
        ("appr-1")).bind ApprovalRecord.torrent_hash = none) := by
  decide

/-- C3: with the 12-seeder release listed before the 50-seeder release by
the indexer search, the view's default selection — what is submitted when
the admin approves without touching the dropdown — is the first-listed
12-seeder release, not the maximum-seeder release that the handler
computes and displays as recommended. -/
theorem c3_default_selection_is_list_head :
    defaultSelectedTorrent [releaseLow, releaseHigh] = some releaseLow ∧
    pyMaxBySeeders [releaseLow, releaseHigh] = some releaseHigh ∧
    releaseLow.seeders = 12 ∧ releaseHigh.seeders = 50 ∧
    defaultSelectedTorrent [releaseLow, releaseHigh] ≠ some releaseHigh := by
  decide

/-- C7: the completion notifier matches an Approval Record only by exact
equality of the stored download-job identifier with the queried one —
a record matches iff its stored hash literally equals the queried hash
(titles and name substrings play no part) — and when no record matches the
notifier returns a warning, leaving every record untouched. -/
theorem c7_notifier_matches_by_exact_hash (approvals : List (String × ApprovalRecord))
    (h : String) :
    (∀ stored : Option String,
      storedHashMatches stored h = true ↔ (stored = some h ∧ h ≠ (""))) ∧
    (∀ q : String × ApprovalRecord, findApprovalByHash approvals h = some q →
      q ∈ approvals ∧ q.2.torrent_hash = some h) ∧
    (findApprovalByHash approvals h = none →
      notifyBotCompletion true approvals h = (NotifyResult.warnNoApproval, approvals)) := by
  have hmatch : ∀ stored : Option String,
      storedHashMatches stored h = true ↔ (stored = some h ∧ h ≠ ("")) := by
    intro stored
    cases stored with
    | none => simp [storedHashMatches]
    | some s =>
      simp only [storedHashMatches, Bool.and_eq_true, Bool.not_eq_true', beq_eq_false_iff_ne,
        beq_iff_eq, Option.some.injEq, ne_eq]
      constructor
      · rintro ⟨h1, rfl⟩
        exact ⟨rfl, h1⟩
      · rintro ⟨rfl, h2⟩
        exact ⟨h2, rfl⟩
  refine ⟨hmatch, ?_, ?_⟩
  · intro q hq
    refine ⟨List.mem_of_find?_eq_some hq, ?_⟩
    have hp := List.find?_some hq
    exact ((hmatch q.2.torrent_hash).mp hp).1
  · intro hnone
    simp [notifyBotCompletion, hnone]

/-- C7 witness: with the stored hash `J1` the record is found by exact
equality; against a ledger whose only record has no stored hash, the
notifier warns and returns the ledger unchanged. -/
theorem c7_witness :
    ((("appr-1"), approvedRecord) ∈ notifiableApprovals ∧
      approvedRecord.torrent_hash = some ("J1")) ∧
    notifyBotCompletion true sampleApprovals ("J1") =
      (NotifyResult.warnNoApproval, sampleApprovals) := by
  constructor
  · exact (c7_notifier_matches_by_exact_hash notifiableApprovals ("J1")).2.1
      ((("appr-1"), approvedRecord)) (by decide)
  · exact (c7_notifier_matches_by_exact_hash sampleApprovals ("J1")).2.2 (by decide)

/-- C8: loading any persisted store — approvals ledger, book-requests
store, request tracker, processed-jobs set — from a missing or unparseable
backing file yields the empty store without error, and subsequent
operations behave as from the empty state: every lookup misses and no hash
is considered processed. -/
theorem c8_load_resilience :
    loadPendingApprovals StoreFile.missing = [] ∧
    loadPendingApprovals StoreFile.unparseable = [] ∧
    loadBookRequests StoreFile.missing = [] ∧
    loadBookRequests StoreFile.unparseable = [] ∧
    loadRequestTracking StoreFile.missing = [] ∧
    loadRequestTracking StoreFile.unparseable = [] ∧
    loadProcessedHashes StoreFile.missing = [] ∧
    loadProcessedHashes StoreFile.unparseable = [] ∧
    (∀ id : String, dictGet (loadPendingApprovals StoreFile.missing) id = none) ∧
    (∀ J : String, J ∉ loadProcessedHashes StoreFile.unparseable) := by
  refine ⟨rfl, rfl, rfl, rfl, rfl, rfl, rfl, rfl, fun id => rfl, fun J => ?_⟩
  simp [loadProcessedHashes]

/-- C9: the book-requests store holds at most one record per derived key
(the ISBN when non-empty, else the lowercased title): keys stay unique
under any sequence of `add_request` calls, and a second `add_request`
under the same key silently replaces the prior record in its entirety —
the key then maps exactly to the second call's freshly built record — and
still returns true. -/
theorem c9_add_request_replaces (d : List (String × BookRequestRecord))
    (isbn₁ title₁ : String) (u₁ m₁ ch₁ : Nat) (ty₁ now₁ : String)
    (isbn₂ title₂ : String) (u₂ m₂ ch₂ : Nat) (ty₂ now₂ : String)
    (hnd : (dictKeys d).Nodup)
    (hkey : bookRequestKey isbn₁ title₁ = bookRequestKey isbn₂ title₂) :
    ((addRequest d isbn₁ title₁ u₁ m₁ ch₁ ty₁ now₁).2 = true) ∧
    ((addRequest (addRequest d isbn₁ title₁ u₁ m₁ ch₁ ty₁ now₁).1
        isbn₂ title₂ u₂ m₂ ch₂ ty₂ now₂).2 = true) ∧
    (dictGet (addRequest (addRequest d isbn₁ title₁ u₁ m₁ ch₁ ty₁ now₁).1
        isbn₂ title₂ u₂ m₂ ch₂ ty₂ now₂).1 (bookRequestKey isbn₂ title₂) =
      some (mkBookRequestRecord isbn₂ title₂ u₂ m₂ ch₂ ty₂ now₂)) ∧
    (dictGet (addRequest (addRequest d isbn₁ title₁ u₁ m₁ ch₁ ty₁ now₁).1
        isbn₂ title₂ u₂ m₂ ch₂ ty₂ now₂).1 (bookRequestKey isbn₁ title₁) =
      some (mkBookRequestRecord isbn₂ title₂ u₂ m₂ ch₂ ty₂ now₂)) ∧
    ((dictKeys (addRequest (addRequest d isbn₁ title₁ u₁ m₁ ch₁ ty₁ now₁).1
        isbn₂ title₂ u₂ m₂ ch₂ ty₂ now₂).1).Nodup) ∧
    (∀ calls : List AddRequestCall, (dictKeys (addRequests calls)).Nodup) := by
  refine ⟨rfl, rfl, ?_, ?_, ?_, ?_⟩
  · exact dictGet_dictSet_self _ _ _
  · rw [hkey]
    exact dictGet_dictSet_self _ _ _
  · exact dictKeys_dictSet_nodup _ _ _ (dictKeys_dictSet_nodup d _ _ hnd)
  · intro calls
    exact addRequests_keys_nodup_aux calls [] (by simp [dictKeys])

/-- C9 witness: two `add_request` calls for the same ISBN key; the second
record replaces the first wholesale and the call returns true. -/
theorem c9_witness :
    dictGet (addRequest (addRequest [] ("9780441172719") ("Dune") 1 10 20 ("ebook")
        ("2024-01-01T00:00:00")).1
      ("9780441172719") ("Dune") 2 30 40 ("audiobook") ("2024-02-02T00:00:00")).1
      (bookRequestKey ("9780441172719") ("Dune")) =
      some (mkBookRequestRecord ("9780441172719") ("Dune") 2 30 40 ("audiobook")
        ("2024-02-02T00:00:00")) :=
  (c9_add_request_replaces [] ("9780441172719") ("Dune") 1 10 20 ("ebook")
    ("2024-01-01T00:00:00") ("9780441172719") ("Dune") 2 30 40 ("audiobook")
    ("2024-02-02T00:00:00") (by simp [dictKeys]) rfl).2.2.1

/-- C10: `add_torrent` returns a job identifier only when some torrent of
the post-submission full listing has a magnet URI equal to the input
string or contains the input string as a contiguous substring of its
name; when no torrent matches it returns `none` even though the
submission succeeded, and an exception anywhere yields `none` rather than
raising. -/
theorem c10_add_torrent_verification (input : String) :
    (∀ e : Unit, add_torrent input (Except.error e) = none) ∧
    (∀ (ts : List TorrentInfo) (h : String),
      add_torrent input (Except.ok ts) = some h →
      ∃ t ∈ ts, (t.magnet_uri = input ∨
        ∃ pre post, t.name.toList = pre ++ input.toList ++ post) ∧ h = t.hash) ∧
    (∀ ts : List TorrentInfo,
      (∀ t ∈ ts, t.magnet_uri ≠ input ∧
        ¬∃ pre post, t.name.toList = pre ++ input.toList ++ post) →
      add_torrent input (Except.ok ts) = none) := by
  refine ⟨fun e => rfl, ?_, ?_⟩
  · intro ts h hsome
    cases hf : findAddedTorrent input ts with
    | none => rw [add_torrent, hf] at hsome; exact absurd hsome (by simp)
    | some t =>
      rw [add_torrent, hf] at hsome
      have ht : h = t.hash := by
        simpa using hsome.symm
      have hmem := List.mem_of_find?_eq_some hf
      have hp := List.find?_some hf
      have hp' : t.magnet_uri = input ∨
          ∃ pre post, t.name.toList = pre ++ input.toList ++ post := by
        have hp2 : (t.magnet_uri == input) = true ∨ strContains t.name input = true := by
          simpa [Bool.or_eq_true] using hp
        rcases hp2 with h1 | h2
        · exact Or.inl (by simpa using h1)
        · exact Or.inr ((charsContain_iff input.toList t.name.toList).mp h2)
      exact ⟨t, hmem, hp', ht⟩
  · intro ts hall
    have hf : findAddedTorrent input ts = none := by
      rw [findAddedTorrent, List.find?_eq_none]
      intro t ht
      rcases hall t ht with ⟨hm, hs⟩
      simp only [Bool.or_eq_true, beq_iff_eq]
      rintro (h1 | h2)
      · exact hm h1
      · exact hs ((charsContain_iff input.toList t.name.toList).mp h2)
    rw [add_torrent, hf]

/-- C10 witness: adding the input `Dune` is verified against a listing in
which the name of `torrentB` (`Dune Messiah [epub]`) contains it. -/
theorem c10_witness :
    ∃ t ∈ [torrentB], (t.magnet_uri = ("Dune") ∨
      ∃ pre post, t.name.toList = pre ++ ("Dune").toList ++ post) ∧ ("BBB") = t.hash :=
  (c10_add_torrent_verification ("Dune")).2.1 [torrentB] ("BBB") (by decide)
